import Mathlib

/-!
Verification of the fetch-and-extract pipeline of `atb-fetch.py`.

Shallow embedding conventions:
* file contents are byte sequences (`List Nat`); the filesystem is a partial
  map from path strings to contents (directories are not tracked — `mkdir`
  calls touch no files);
* `hashlib.md5(...).hexdigest()` is external library code, modelled by a
  `digest : ByteSeq → String` parameter (hashlib guarantees a lowercase hex
  string; where a claim needs that, it appears as an explicit hypothesis);
* `urlopen` is modelled by an oracle `net : Nat → Except FetchErr ByteSeq`
  giving the outcome of the request made on attempt `i`; a raised exception
  is an `Except.error`, a read body is `Except.ok`;
* Python's `attempts : int` may be non-positive, so it is embedded as `Int`;
  `range(attempts)` has `attempts.toNat` iterations.
-/

namespace AtbFetch

abbrev ByteSeq := List Nat

abbrev FS := String → Option ByteSeq

def fsWrite (fs : FS) (p : String) (b : ByteSeq) : FS :=
  fun q => if q = p then some b else fs q

def fsRemove (fs : FS) (p : String) : FS :=
  fun q => if q = p then none else fs q

/-- Python's `str.lower()` for the ASCII strings (hex digests) involved
here: lowercase every character. -/
def strLower (s : String) : String := ⟨s.data.map Char.toLower⟩

/-- Python truthiness of an `Optional[str]`: `None` and `""` are falsy. -/
def truthy : Option String → Bool
  | none => false
  | some s => decide (s ≠ "")

/-- Embedding of `md5_ok(path, expected)` (atb-fetch.py lines 20-27): false when `expected`
is falsy or the path does not exist, else compares the file's hex digest with
`expected.lower()`. -/
def md5_ok (digest : ByteSeq → String) (fs : FS) (path : String)
    (expected : Option String) : Bool :=
  match expected with
  | none => false
  | some e =>
    if e = "" then false
    else
      match fs path with
      | none => false
      | some bytes => digest bytes == strLower e

/-- The exceptions `download_with_retry` can see: `urlopen` failures and the
`ValueError("md5 mismatch")` it raises itself. -/
inductive FetchErr
  | network
  | md5Mismatch
deriving DecidableEq

/-- Observable effects of one `download_with_retry` call: the filesystem,
the number of network requests issued, and the list of back-off sleeps in
the order they were performed. -/
structure FetchState where
  fs : FS
  requests : Nat
  sleeps : List Nat

/-- The `for i in range(attempts)` loop of `download_with_retry`
(atb-fetch.py lines 31-47).  `r` is the number of remaining iterations
(`r = attempts - i`), `i` the current attempt index.  A raised exception that
is not re-raised (`i < attempts - 1`) sleeps `2 ** i` and continues; on the
last iteration it propagates as `Except.error`.  Falling out of the loop
(only possible when it had zero iterations) returns the string `"failed"`. -/
def downloadAux (digest : ByteSeq → String) (net : Nat → Except FetchErr ByteSeq)
    (out : String) (expected : Option String) :
    Nat → Nat → FetchState → Except FetchErr String × FetchState
  | 0, _, st => (.ok "failed", st)
  | r + 1, i, st =>
    if truthy expected && md5_ok digest st.fs out expected then
      (.ok "cached-ok", st)
    else
      let st1 : FetchState := { st with requests := st.requests + 1 }
      match net i with
      | .error e =>
        if r = 0 then (.error e, st1)
        else
          downloadAux digest net out expected r (i + 1)
            { st1 with sleeps := st1.sleeps ++ [2 ^ i] }
      | .ok data =>
        let tmp := out ++ ".part"
        let fs2 := fsWrite (fsRemove (fsWrite st1.fs tmp data) tmp) out data
        let st2 : FetchState := { st1 with fs := fs2 }
        if truthy expected && !md5_ok digest fs2 out expected then
          if r = 0 then (.error .md5Mismatch, st2)
          else
            downloadAux digest net out expected r (i + 1)
              { st2 with sleeps := st2.sleeps ++ [2 ^ i] }
        else
          (.ok "downloaded", st2)

/-- Embedding of `download_with_retry(url, out, expected_md5, attempts)`
(atb-fetch.py lines 29-48).  The `url` argument is carried only by the `net`
oracle.  The result is the returned string, or `Except.error` when the call
raises. -/
def download_with_retry (digest : ByteSeq → String)
    (net : Nat → Except FetchErr ByteSeq) (url : String) (out : String)
    (expected : Option String) (attempts : Int) (fs : FS) :
    Except FetchErr String × FetchState :=
  let _ := url
  downloadAux digest net out expected attempts.toNat 0 ⟨fs, 0, []⟩

/-- One entry of the tar archive stream: its in-archive name, whether it is a
regular file (`member.isreg()`), and the byte stream `tf.extractfile(member)`
yields for it (`none` models `extractfile` returning `None`). -/
structure TarMember where
  name : String
  isreg : Bool
  content : Option ByteSeq
deriving DecidableEq

/-- Model of `Path(name).parts` for the relative slash-separated names that occur in
tar archives. -/
def pathParts (name : String) : List String :=
  (name.splitOn "/").filter (fun p => decide (p ≠ ""))

/-- The flattened output name of an extracted member (atb-fetch.py lines
60-61): drop the first `strip` path components and keep the basename of what
remains, falling back to the member's own basename when nothing remains. -/
def targetName (strip : Nat) (name : String) : String :=
  match ((pathParts name).drop strip).getLast? with
  | some b => b
  | none =>
    match (pathParts name).getLast? with
    | some b => b
    | none => ""

/-- The `for member in tf` loop of `extract_selected` (atb-fetch.py lines
55-73).  The state threads the caller's `members_to_get` object (`caller`,
which no statement of the loop touches), the local `missing` set, and the
filesystem.  `continue` branches skip the end-of-body `if not missing: break`
check, exactly as in the source. -/
def extractLoop (outdir : String) (strip : Nat) :
    List TarMember → Finset String → Finset String → FS →
      Finset String × Finset String × FS
  | [], caller, missing, fs => (caller, missing, fs)
  | m :: rest, caller, missing, fs =>
    if m.isreg = false then
      extractLoop outdir strip rest caller missing fs
    else if m.name ∈ missing then
      match m.content with
      | none => extractLoop outdir strip rest caller missing fs
      | some bytes =>
        let fs1 := fsWrite fs (outdir ++ "/" ++ targetName strip m.name) bytes
        let missing1 := missing.erase m.name
        if missing1 = ∅ then (caller, missing1, fs1)
        else extractLoop outdir strip rest caller missing1 fs1
    else
      if missing = ∅ then (caller, missing, fs)
      else extractLoop outdir strip rest caller missing fs

/-- Embedding of `extract_selected(tar_path, members_to_get, outdir, strip_components)`
(atb-fetch.py lines 50-74).  `tar` is the archive's entry stream.  The local
`missing` starts as `set(members_to_get)` — a copy, so the caller's object is
a separate state component.  Returns (caller's set after the call, the
returned `missing` set, the filesystem after the call). -/
def extract_selected (tar : List TarMember) (members_to_get : Finset String)
    (outdir : String) (strip : Nat) (fs : FS) :
    Finset String × Finset String × FS :=
  extractLoop outdir strip tar members_to_get members_to_get fs

/-- A filtered metadata row, restricted to the fields the download plan uses
(atb-fetch.py lines 207-221): `tar_xz`, `tar_xz_url`, `filename_in_tar_xz`,
and the optional `tar_xz_md5` value (`none` when the column is absent). -/
structure Row where
  tar : String
  url : String
  member : String
  md5 : Option String
deriving DecidableEq

/-- Model of `plan.setdefault(key, set()).add(member)` on an insertion-ordered
association list keyed by the `(tar_xz, tar_xz_url)` pair. -/
def planInsert (key : String × String) (m : String) :
    List ((String × String) × Finset String) →
      List ((String × String) × Finset String)
  | [] => [(key, {m})]
  | (k, s) :: rest =>
    if k = key then (k, insert m s) :: rest
    else (k, s) :: planInsert key m rest

/-- The plan-building fold of `main` (atb-fetch.py lines 213-217): group the
rows by the `(tar_xz, tar_xz_url)` pair, accumulating member names. -/
def buildPlan (rows : List Row) : List ((String × String) × Finset String) :=
  rows.foldl (fun acc r => planInsert (r.tar, r.url) r.member acc) []

/-- Model of `d[k] = v` on an insertion-ordered association list. -/
def mapSet (k v : String) :
    List (String × String) → List (String × String)
  | [] => [(k, v)]
  | (k0, v0) :: rest =>
    if k0 = k then (k0, v) :: rest else (k0, v0) :: mapSet k v rest

/-- The `md5_map` accumulation of `main` (atb-fetch.py lines 218-221): record
each row's truthy `tar_xz_md5` value under its `tar_xz` name. -/
def buildMd5Map (rows : List Row) : List (String × String) :=
  rows.foldl
    (fun acc r =>
      match r.md5 with
      | none => acc
      | some v => if v = "" then acc else mapSet r.tar v acc)
    []

/-- The `for fut in as_completed(futs): status = fut.result()` loop of `main`
(atb-fetch.py lines 247-250), applied to the download outcomes in completion
order: `fut.result()` re-raises the first stored exception it reaches, which
propagates out of `main`. -/
def collectFetch : List (Except FetchErr String) → Except FetchErr Unit
  | [] => .ok ()
  | .error e :: _ => .error e
  | .ok _ :: rest => collectFetch rest

/-- The extraction loop of `main` (atb-fetch.py lines 253-259) over every
plan entry, with the default `--delete-tars` off: run `extract_selected` on
each archive's entry stream (`archives tarname`) and record its missing set.
Returns the per-archive missing sets and the final filesystem. -/
def extractPhase (archives : String → List TarMember) (outdir : String)
    (strip : Nat) :
    List ((String × String) × Finset String) → FS →
      List (String × Finset String) × FS
  | [], fs => ([], fs)
  | (key, members) :: rest, fs =>
    let r := extract_selected (archives key.1) members outdir strip fs
    let tail := extractPhase archives outdir strip rest r.2.2
    ((key.1, r.2.1) :: tail.1, tail.2)

/-- The download-and-extract tail of `main` (atb-fetch.py lines 242-264):
collect the fetch outcomes as `as_completed` yields them — re-raising the
first exception, which aborts `main` — and only if none raised, run the
extraction loop over every plan entry. -/
def runDownloadsAndExtract (plan : List ((String × String) × Finset String))
    (outcomes : List (Except FetchErr String))
    (archives : String → List TarMember) (outdir : String) (strip : Nat)
    (fs : FS) : Except FetchErr (List (String × Finset String) × FS) :=
  match collectFetch outcomes with
  | .error e => .error e
  | .ok _ => .ok (extractPhase archives outdir strip plan fs)

/-! ### Lemmas about the extraction loop -/

lemma extractLoop_caller (outdir : String) (strip : Nat) :
    ∀ (tar : List TarMember) (caller missing : Finset String) (fs : FS),
      (extractLoop outdir strip tar caller missing fs).1 = caller := by
  intro tar
  induction tar with
  | nil => intro caller missing fs; rfl
  | cons m rest ih =>
    intro caller missing fs
    simp only [extractLoop]
    split
    · exact ih caller missing fs
    · split
      · split
        · exact ih caller missing fs
        · split
          · rfl
          · exact ih ..
      · split
        · rfl
        · exact ih caller missing fs

lemma extractLoop_missing_subset (outdir : String) (strip : Nat) :
    ∀ (tar : List TarMember) (caller missing : Finset String) (fs : FS),
      (extractLoop outdir strip tar caller missing fs).2.1 ⊆ missing := by
  intro tar
  induction tar with
  | nil => intro caller missing fs; exact fun a ha => ha
  | cons m rest ih =>
    intro caller missing fs
    simp only [extractLoop]
    split
    · exact ih caller missing fs
    · split
      · split
        · exact ih caller missing fs
        · split
          · exact fun a ha => (Finset.erase_subset _ _) (by simpa using ha)
          · exact fun a ha =>
              (Finset.erase_subset _ _) (ih caller (missing.erase m.name) _ ha)
      · split
        · exact fun a ha => ha
        · exact ih caller missing fs

/-- C3: for every archive and wanted-member set, `extract_selected` returns a
`missing` set that is a subset of the input wanted set, and with
`found := wanted \ missing` we get `found ∪ missing = wanted` and
`found ∩ missing = ∅`. -/
theorem extract_selected_complete (tar : List TarMember)
    (wanted : Finset String) (outdir : String) (strip : Nat) (fs : FS) :
    (extract_selected tar wanted outdir strip fs).2.1 ⊆ wanted ∧
      (wanted \ (extract_selected tar wanted outdir strip fs).2.1) ∪
          (extract_selected tar wanted outdir strip fs).2.1 = wanted ∧
      (wanted \ (extract_selected tar wanted outdir strip fs).2.1) ∩
          (extract_selected tar wanted outdir strip fs).2.1 = ∅ := by
  have hsub := extractLoop_missing_subset outdir strip tar wanted wanted fs
  exact ⟨hsub, Finset.sdiff_union_of_subset hsub, Finset.sdiff_inter_self _ _⟩

/-- C9: extraction never mutates its input set — `extract_selected` works on
a private copy of `members_to_get`, and the caller's set is identical before
and after the call. -/
theorem extract_selected_frame (tar : List TarMember) (wanted : Finset String)
    (outdir : String) (strip : Nat) (fs : FS) :
    (extract_selected tar wanted outdir strip fs).1 = wanted :=
  extractLoop_caller outdir strip tar wanted wanted fs

/-! ### Lemmas about `download_with_retry` -/

/-- One-step unfolding of the retry loop, for controlled rewriting. -/
lemma downloadAux_succ (digest : ByteSeq → String)
    (net : Nat → Except FetchErr ByteSeq) (out : String)
    (expected : Option String) (r i : Nat) (st : FetchState) :
    downloadAux digest net out expected (r + 1) i st =
      if truthy expected && md5_ok digest st.fs out expected then
        (.ok "cached-ok", st)
      else
        match net i with
        | .error e =>
          if r = 0 then (.error e, { st with requests := st.requests + 1 })
          else
            downloadAux digest net out expected r (i + 1)
              { st with requests := st.requests + 1,
                        sleeps := st.sleeps ++ [2 ^ i] }
        | .ok data =>
          if truthy expected &&
              !md5_ok digest
                (fsWrite (fsRemove (fsWrite st.fs (out ++ ".part") data)
                  (out ++ ".part")) out data) out expected then
            if r = 0 then
              (.error .md5Mismatch,
                { st with
                    fs := fsWrite (fsRemove
                      (fsWrite st.fs (out ++ ".part") data) (out ++ ".part"))
                      out data,
                    requests := st.requests + 1 })
            else
              downloadAux digest net out expected r (i + 1)
                { st with
                    fs := fsWrite (fsRemove
                      (fsWrite st.fs (out ++ ".part") data) (out ++ ".part"))
                      out data,
                    requests := st.requests + 1,
                    sleeps := st.sleeps ++ [2 ^ i] }
          else
            (.ok "downloaded",
              { st with
                  fs := fsWrite (fsRemove
                    (fsWrite st.fs (out ++ ".part") data) (out ++ ".part"))
                    out data,
                  requests := st.requests + 1 }) := rfl

lemma md5_ok_isSome (digest : ByteSeq → String) (fs : FS) (p : String)
    (expected : Option String) (h : md5_ok digest fs p expected = true) :
    (fs p).isSome := by
  match expected with
  | none => simp [md5_ok] at h
  | some e =>
    by_cases he : e = ""
    · simp [md5_ok, he] at h
    · cases hf : fs p with
      | none => simp [md5_ok, he, hf] at h
      | some b => simp

/-- C4: fetch is idempotent under a valid checksum — when the destination's
contents already hash to the (non-empty) expected value, `download_with_retry`
returns `"cached-ok"` with zero network requests and an unchanged filesystem,
for any positive attempt count. -/
theorem download_cached_ok (digest : ByteSeq → String)
    (net : Nat → Except FetchErr ByteSeq) (url out e : String)
    (bytes : ByteSeq) (attempts : Int) (fs : FS)
    (he : e ≠ "") (hb : fs out = some bytes)
    (hd : digest bytes = strLower e) (ha : 1 ≤ attempts) :
    (download_with_retry digest net url out (some e) attempts fs).1
        = .ok "cached-ok" ∧
      (download_with_retry digest net url out (some e) attempts fs).2.requests
        = 0 ∧
      (download_with_retry digest net url out (some e) attempts fs).2.fs
        = fs := by
  obtain ⟨r, hr⟩ : ∃ r, attempts.toNat = r + 1 :=
    ⟨attempts.toNat - 1, by omega⟩
  have hguard : (truthy (some e) &&
      md5_ok digest fs out (some e)) = true := by
    simp [truthy, md5_ok, he, hb, hd]
  simp [download_with_retry, hr, downloadAux, hguard]

/-- C4 witness: a concrete already-valid destination is served from cache. -/
theorem download_cached_ok_witness :
    (download_with_retry (fun _ => "ab") (fun _ => .error .network) "u" "o"
        (some "AB") 5 (fun p => if p = "o" then some [1, 2] else none)).1
        = .ok "cached-ok" ∧
      (download_with_retry (fun _ => "ab") (fun _ => .error .network) "u" "o"
        (some "AB") 5 (fun p => if p = "o" then some [1, 2] else none)).2.requests
        = 0 ∧
      (download_with_retry (fun _ => "ab") (fun _ => .error .network) "u" "o"
        (some "AB") 5 (fun p => if p = "o" then some [1, 2] else none)).2.fs
        = (fun p => if p = "o" then some [1, 2] else none) :=
  download_cached_ok (fun _ => "ab") (fun _ => .error .network) "u" "o" "AB"
    [1, 2] 5 (fun p => if p = "o" then some [1, 2] else none)
    (by decide) rfl rfl (by decide)

/-- C10: with a non-positive attempt count the loop body never runs:
`download_with_retry` returns the string `"failed"`, performs no network
request, and leaves the filesystem untouched. -/
theorem download_nonpositive_attempts (digest : ByteSeq → String)
    (net : Nat → Except FetchErr ByteSeq) (url out : String)
    (expected : Option String) (attempts : Int) (fs : FS)
    (h : attempts ≤ 0) :
    (download_with_retry digest net url out expected attempts fs).1
        = .ok "failed" ∧
      (download_with_retry digest net url out expected attempts fs).2.requests
        = 0 ∧
      (download_with_retry digest net url out expected attempts fs).2.fs
        = fs := by
  have h0 : attempts.toNat = 0 := by omega
  simp [download_with_retry, h0, downloadAux]

/-- C10 witness: a concrete call with `attempts = -3`. -/
theorem download_nonpositive_attempts_witness :
    (download_with_retry (fun _ => "") (fun _ => .ok [1]) "u" "o" none (-3)
        (fun _ => none)).1 = .ok "failed" ∧
      (download_with_retry (fun _ => "") (fun _ => .ok [1]) "u" "o" none (-3)
        (fun _ => none)).2.requests = 0 ∧
      (download_with_retry (fun _ => "") (fun _ => .ok [1]) "u" "o" none (-3)
        (fun _ => none)).2.fs = (fun _ => none) :=
  download_nonpositive_attempts (fun _ => "") (fun _ => .ok [1]) "u" "o" none
    (-3) (fun _ => none) (by decide)

/-- C1 counterexample: with two attempts that both hit a network error,
`download_with_retry` raises the last error (an `Except.error` leaving the
function) instead of returning a `failed` outcome as data. -/
theorem download_exhausted_raises_cex :
    (download_with_retry (fun _ => "") (fun _ => .error .network) "u" "o"
        none 2 (fun _ => none)).1 = .error .network := rfl

/-- C1 (amended): when every attempt fails with the same error and at least
one attempt is configured, `download_with_retry` re-raises that error on the
final attempt (the exception propagates to the caller); the `"failed"` string
is returned only when the loop has zero iterations. -/
theorem download_exhausted_raises (digest : ByteSeq → String)
    (net : Nat → Except FetchErr ByteSeq) (url out : String) (er : FetchErr)
    (attempts : Int) (fs : FS)
    (hnet : ∀ i, net i = .error er) (h1 : 1 ≤ attempts) :
    (download_with_retry digest net url out none attempts fs).1
      = .error er := by
  obtain ⟨r, hr⟩ : ∃ r, attempts.toNat = r + 1 :=
    ⟨attempts.toNat - 1, by omega⟩
  have key : ∀ (r i : Nat) (st : FetchState),
      (downloadAux digest net out none (r + 1) i st).1 = .error er := by
    intro r
    induction r with
    | zero => intro i st; simp [downloadAux_succ, truthy, md5_ok, hnet i]
    | succ k ih =>
      intro i st
      rw [downloadAux_succ]
      simp [truthy, md5_ok, hnet i]
      exact ih (i + 1) _
  simp [download_with_retry, hr, key]

/-- C1 witness for the amended statement: three failing attempts raise. -/
theorem download_exhausted_raises_witness :
    (download_with_retry (fun _ => "") (fun _ => .error .network) "u" "o"
        none 3 (fun _ => none)).1 = .error FetchErr.network :=
  download_exhausted_raises (fun _ => "") (fun _ => .error .network) "u" "o"
    .network 3 (fun _ => none) (fun _ => rfl) (by decide)

lemma downloadAux_requests_le (digest : ByteSeq → String)
    (net : Nat → Except FetchErr ByteSeq) (out : String)
    (expected : Option String) :
    ∀ (r i : Nat) (st : FetchState),
      (downloadAux digest net out expected r i st).2.requests
        ≤ st.requests + r := by
  intro r
  induction r with
  | zero => intro i st; simp [downloadAux]
  | succ k ih =>
    intro i st
    rw [downloadAux_succ]
    split
    · simp
    · split
      · split
        · simp
        · exact le_trans (ih (i + 1) _) (by simp; omega)
      · split
        · split
          · simp
          · exact le_trans (ih (i + 1) _) (by simp; omega)
        · simp

lemma downloadAux_sleeps (digest : ByteSeq → String)
    (net : Nat → Except FetchErr ByteSeq) (out : String)
    (expected : Option String) :
    ∀ (r i : Nat) (st : FetchState), ∃ n,
      (downloadAux digest net out expected r i st).2.sleeps
        = st.sleeps ++ (List.range' i n).map (fun j => 2 ^ j) := by
  intro r
  induction r with
  | zero => intro i st; exact ⟨0, by simp [downloadAux]⟩
  | succ k ih =>
    intro i st
    rw [downloadAux_succ]
    split
    · exact ⟨0, by simp⟩
    · split
      · split
        · exact ⟨0, by simp⟩
        · obtain ⟨n, hn⟩ := ih (i + 1)
            { st with requests := st.requests + 1,
                      sleeps := st.sleeps ++ [2 ^ i] }
          refine ⟨n + 1, ?_⟩
          rw [hn]
          simp [List.range'_succ]
      · split
        · split
          · exact ⟨0, by simp⟩
          · obtain ⟨n, hn⟩ := ih (i + 1) _
            refine ⟨n + 1, ?_⟩
            rw [hn]
            simp [List.range'_succ]
        · exact ⟨0, by simp⟩

/-- C7: per call, at most `attempts` network requests are made, and the
back-off sleeps form a non-decreasing (indeed strictly increasing powers of
two) sequence. -/
theorem download_backoff (digest : ByteSeq → String)
    (net : Nat → Except FetchErr ByteSeq) (url out : String)
    (expected : Option String) (attempts : Int) (fs : FS) :
    (download_with_retry digest net url out expected attempts fs).2.requests
        ≤ attempts.toNat ∧
      ((download_with_retry digest net url out expected attempts
          fs).2.sleeps).Pairwise (· ≤ ·) := by
  constructor
  · have h := downloadAux_requests_le digest net out expected attempts.toNat 0
      ⟨fs, 0, []⟩
    simpa [download_with_retry] using h
  · obtain ⟨n, hn⟩ := downloadAux_sleeps digest net out expected
      attempts.toNat 0 ⟨fs, 0, []⟩
    have hmain : (downloadAux digest net out expected attempts.toNat 0
        ⟨fs, 0, []⟩).2.sleeps = (List.range' 0 n).map (fun j => 2 ^ j) := by
      simpa using hn
    show ((downloadAux digest net out expected attempts.toNat 0
        ⟨fs, 0, []⟩).2.sleeps).Pairwise (· ≤ ·)
    rw [hmain]
    have hlt : (List.range' 0 n).Pairwise (· < ·) := List.pairwise_lt_range' 0 n
    exact List.pairwise_map.mpr
      (hlt.imp fun h => Nat.pow_le_pow_right (by omega) (Nat.le_of_lt h))

lemma out_ne_part (out : String) : out ≠ out ++ ".part" := by
  intro h
  have hlen : out.length = (out ++ ".part").length := congrArg String.length h
  rw [String.length_append] at hlen
  have h5 : (".part" : String).length = 5 := rfl
  omega

lemma fs_after_replace_part (fs : FS) (out : String) (data : ByteSeq) :
    (fsWrite (fsRemove (fsWrite fs (out ++ ".part") data) (out ++ ".part"))
      out data) (out ++ ".part") = none := by
  have h : ¬(out ++ ".part" = out) := fun heq => out_ne_part out heq.symm
  simp [fsWrite, fsRemove, h]

lemma downloadAux_part_none (digest : ByteSeq → String)
    (net : Nat → Except FetchErr ByteSeq) (out : String)
    (expected : Option String) :
    ∀ (r i : Nat) (st : FetchState), st.fs (out ++ ".part") = none →
      (downloadAux digest net out expected r i st).2.fs (out ++ ".part")
        = none := by
  intro r
  induction r with
  | zero => intro i st h; simpa [downloadAux] using h
  | succ k ih =>
    intro i st h
    rw [downloadAux_succ]
    split
    · exact h
    · split
      · split
        · exact h
        · exact ih (i + 1) _ h
      · split
        · split
          · exact fs_after_replace_part st.fs out _
          · exact ih (i + 1) _ (fs_after_replace_part st.fs out _)
        · exact fs_after_replace_part st.fs out _

lemma downloadAux_success_some (digest : ByteSeq → String)
    (net : Nat → Except FetchErr ByteSeq) (out : String)
    (expected : Option String) :
    ∀ (r i : Nat) (st : FetchState),
      ((downloadAux digest net out expected r i st).1 = .ok "downloaded" ∨
        (downloadAux digest net out expected r i st).1 = .ok "cached-ok") →
      ((downloadAux digest net out expected r i st).2.fs out).isSome := by
  intro r
  induction r with
  | zero => intro i st h; simp [downloadAux] at h
  | succ k ih =>
    intro i st h
    rw [downloadAux_succ] at h ⊢
    revert h
    split
    · rename_i hguard
      intro _
      exact md5_ok_isSome digest st.fs out expected
        ((Bool.and_eq_true _ _).mp hguard).2
    · split
      · split
        · intro h; simp at h
        · intro h; exact ih (i + 1) _ h
      · split
        · split
          · intro h; simp at h
          · intro h; exact ih (i + 1) _ h
        · intro _
          simp [fsWrite]

/-- C8: if no stale `.part` file exists beforehand, then after any call —
success or terminal failure — no `.part` temporary file remains (each one
written is renamed over the destination in the same attempt), and on success
(`"downloaded"` or `"cached-ok"`) the destination path holds an artifact. -/
theorem download_no_part_left (digest : ByteSeq → String)
    (net : Nat → Except FetchErr ByteSeq) (url out : String)
    (expected : Option String) (attempts : Int) (fs : FS)
    (h : fs (out ++ ".part") = none) :
    (download_with_retry digest net url out expected attempts fs).2.fs
        (out ++ ".part") = none ∧
      ((download_with_retry digest net url out expected attempts fs).1
            = .ok "downloaded" ∨
          (download_with_retry digest net url out expected attempts fs).1
            = .ok "cached-ok" →
        ((download_with_retry digest net url out expected attempts
            fs).2.fs out).isSome) := by
  constructor
  · exact downloadAux_part_none digest net out expected attempts.toNat 0
      ⟨fs, 0, []⟩ h
  · exact downloadAux_success_some digest net out expected attempts.toNat 0
      ⟨fs, 0, []⟩

/-- C8 witness: a concrete successful download leaves no `.part` file and
one artifact at the destination. -/
theorem download_no_part_left_witness :
    (download_with_retry (fun _ => "") (fun _ => .ok [7]) "u" "o" none 1
        (fun _ => none)).2.fs ("o" ++ ".part") = none ∧
      ((download_with_retry (fun _ => "") (fun _ => .ok [7]) "u" "o" none 1
            (fun _ => none)).1 = .ok "downloaded" ∨
          (download_with_retry (fun _ => "") (fun _ => .ok [7]) "u" "o" none 1
            (fun _ => none)).1 = .ok "cached-ok" →
        ((download_with_retry (fun _ => "") (fun _ => .ok [7]) "u" "o" none 1
            (fun _ => none)).2.fs "o").isSome) :=
  download_no_part_left (fun _ => "") (fun _ => .ok [7]) "u" "o" none 1
    (fun _ => none) rfl

/-- C5: the checksum verifier returns false when the expected value is
absent or empty or the path does not exist; otherwise — given that the digest
function emits lowercase hex, as `hashlib.md5(...).hexdigest()` does — it
returns true exactly when the file's digest equals the expected string
case-insensitively, and it is insensitive to the case of the expected
string.  (It is a pure read: its embedding takes the filesystem and returns
only a Boolean.) -/
theorem md5_ok_spec (digest : ByteSeq → String) (fs : FS) (path : String) :
    md5_ok digest fs path none = false ∧
      md5_ok digest fs path (some "") = false ∧
      (∀ expected, fs path = none → md5_ok digest fs path expected = false) ∧
      (∀ e bytes, e ≠ "" → fs path = some bytes →
        strLower (digest bytes) = digest bytes →
        (md5_ok digest fs path (some e) = true ↔
          strLower (digest bytes) = strLower e)) ∧
      (∀ e₁ e₂, e₁ ≠ "" → e₂ ≠ "" → strLower e₁ = strLower e₂ →
        md5_ok digest fs path (some e₁) = md5_ok digest fs path (some e₂)) := by
  refine ⟨rfl, rfl, ?_, ?_, ?_⟩
  · intro expected hnone
    match expected with
    | none => rfl
    | some e =>
      by_cases he : e = "" <;> simp [md5_ok, he, hnone]
  · intro e bytes he hb hl
    simp only [md5_ok, hb, if_neg he, beq_iff_eq]
    rw [hl]
  · intro e₁ e₂ he₁ he₂ h12
    simp [md5_ok, he₁, he₂, h12]

/-- C5 witness: concrete guard cases and a concrete case-insensitive
comparison. -/
theorem md5_ok_spec_witness :
    md5_ok (fun _ => "ab") (fun p => if p = "f" then some [1] else none) "f"
        none = false ∧
      md5_ok (fun _ => "ab") (fun p => if p = "f" then some [1] else none) "f"
          (some "AB")
        = md5_ok (fun _ => "ab") (fun p => if p = "f" then some [1] else none)
          "f" (some "aB") ∧
      (md5_ok (fun _ => "ab") (fun p => if p = "f" then some [1] else none) "f"
          (some "AB") = true ↔
        strLower ((fun (_ : ByteSeq) => "ab") [1]) = strLower "AB") :=
  ⟨(md5_ok_spec (fun _ => "ab")
      (fun p => if p = "f" then some [1] else none) "f").1,
    (md5_ok_spec (fun _ => "ab")
      (fun p => if p = "f" then some [1] else none) "f").2.2.2.2 "AB" "aB"
      (by decide) (by decide) (by decide),
    (md5_ok_spec (fun _ => "ab")
      (fun p => if p = "f" then some [1] else none) "f").2.2.2.1 "AB" [1]
      (by decide) rfl rfl⟩

/-! ### Lemmas about the orchestration tail of `main` -/

lemma collectFetch_ok :
    ∀ outcomes : List (Except FetchErr String),
      (∀ o ∈ outcomes, ∃ s, o = Except.ok s) → collectFetch outcomes = .ok () := by
  intro outcomes
  induction outcomes with
  | nil => intro _; rfl
  | cons o rest ih =>
    intro h
    obtain ⟨s, hs⟩ := h o (by simp)
    subst hs
    exact ih fun o ho => h o (by simp [ho])

lemma extractPhase_tars (archives : String → List TarMember)
    (outdir : String) (strip : Nat) :
    ∀ (plan : List ((String × String) × Finset String)) (fs : FS),
      ((extractPhase archives outdir strip plan fs).1).map Prod.fst
        = plan.map (fun e => e.1.1) := by
  intro plan
  induction plan with
  | nil => intro fs; rfl
  | cons e rest ih =>
    intro fs
    simp [extractPhase, ih]

/-- C2 counterexample: a two-entry run in which archive `A`'s fetch stored an
exception and archive `B`'s fetch succeeded.  `fut.result()` re-raises `A`'s
error, so `main` aborts with that error and archive `B`'s extraction never
runs — the run produces no extraction outcome at all. -/
theorem pipeline_failure_aborts_cex :
    runDownloadsAndExtract
        [(("A", "uA"), {"m"}), (("B", "uB"), {"m"})]
        [Except.error FetchErr.network, Except.ok "downloaded"]
        (fun _ => [⟨"m", true, some [1]⟩]) "out" 1 (fun _ => none)
      = .error .network := rfl

/-- C2 (amended): a single stored fetch exception aborts the orchestration
tail of `main` before any extraction; extraction runs for every plan entry
exactly when every collected fetch outcome is a success. -/
theorem pipeline_extracts_when_all_ok
    (plan : List ((String × String) × Finset String))
    (outcomes : List (Except FetchErr String))
    (archives : String → List TarMember) (outdir : String) (strip : Nat)
    (fs : FS) (hok : ∀ o ∈ outcomes, ∃ s, o = Except.ok s) :
    runDownloadsAndExtract plan outcomes archives outdir strip fs
        = .ok (extractPhase archives outdir strip plan fs) ∧
      ((extractPhase archives outdir strip plan fs).1).map Prod.fst
        = plan.map (fun e => e.1.1) := by
  refine ⟨?_, extractPhase_tars archives outdir strip plan fs⟩
  simp [runDownloadsAndExtract, collectFetch_ok outcomes hok]

/-- C2 witness for the amended statement: with both fetches successful, the
pipeline extracts every plan entry. -/
theorem pipeline_extracts_when_all_ok_witness :
    runDownloadsAndExtract
        [(("A", "uA"), {"m"}), (("B", "uB"), {"m"})]
        [Except.ok "downloaded", Except.ok "cached-ok"]
        (fun _ => [⟨"m", true, some [1]⟩]) "out" 1 (fun _ => none)
        = .ok (extractPhase (fun _ => [⟨"m", true, some [1]⟩]) "out" 1
            [(("A", "uA"), {"m"}), (("B", "uB"), {"m"})] (fun _ => none)) ∧
      ((extractPhase (fun _ => [⟨"m", true, some [1]⟩]) "out" 1
            [(("A", "uA"), {"m"}), (("B", "uB"), {"m"})]
            (fun _ => none)).1).map Prod.fst
        = ([(("A", "uA"), {"m"}), (("B", "uB"), {"m"})] :
            List ((String × String) × Finset String)).map (fun e => e.1.1) :=
  pipeline_extracts_when_all_ok
    [(("A", "uA"), {"m"}), (("B", "uB"), {"m"})]
    [Except.ok "downloaded", Except.ok "cached-ok"]
    (fun _ => [⟨"m", true, some [1]⟩]) "out" 1 (fun _ => none)
    (by intro o ho; simp at ho; rcases ho with h | h <;> exact ⟨_, h⟩)

/-! ### Lemmas about plan construction -/

lemma planInsert_keys (key : String × String) (m : String) :
    ∀ acc : List ((String × String) × Finset String),
      (planInsert key m acc).map Prod.fst =
        if key ∈ acc.map Prod.fst then acc.map Prod.fst
        else acc.map Prod.fst ++ [key] := by
  intro acc
  induction acc with
  | nil => simp [planInsert]
  | cons e rest ih =>
    obtain ⟨k, s⟩ := e
    by_cases hk : k = key
    · subst hk; simp [planInsert]
    · have hk' : ¬key = k := fun h => hk h.symm
      by_cases hmem : key ∈ rest.map Prod.fst
      · simp [planInsert, hk, ih, hmem, hk']
      · simp [planInsert, hk, ih, hmem, hk']

lemma planInsert_keys_mem (key : String × String) (m : String)
    (acc : List ((String × String) × Finset String)) (k : String × String) :
    k ∈ (planInsert key m acc).map Prod.fst ↔
      k ∈ acc.map Prod.fst ∨ k = key := by
  rw [planInsert_keys]
  split
  · rename_i hc
    constructor
    · exact Or.inl
    · rintro (h | rfl)
      · exact h
      · exact hc
  · simp

lemma buildPlan_aux :
    ∀ (rows : List Row) (acc : List ((String × String) × Finset String)),
      ((acc.map Prod.fst).Nodup →
        ((rows.foldl (fun a r => planInsert (r.tar, r.url) r.member a)
            acc).map Prod.fst).Nodup) ∧
      (∀ k, k ∈ (rows.foldl (fun a r => planInsert (r.tar, r.url) r.member a)
            acc).map Prod.fst ↔
          k ∈ acc.map Prod.fst ∨ k ∈ rows.map fun r => (r.tar, r.url)) := by
  intro rows
  induction rows with
  | nil =>
    intro acc
    exact ⟨id, fun k => by simp⟩
  | cons r rest ih =>
    intro acc
    constructor
    · intro hnd
      apply (ih (planInsert (r.tar, r.url) r.member acc)).1
      rw [planInsert_keys]
      split
      · exact hnd
      · rename_i hnm
        refine List.nodup_append.mpr ⟨hnd, List.nodup_singleton _, ?_⟩
        intro a ha hb
        rw [List.mem_singleton] at hb
        subst hb
        exact hnm ha
    · intro k
      show k ∈ (rest.foldl (fun a r => planInsert (r.tar, r.url) r.member a)
          (planInsert (r.tar, r.url) r.member acc)).map Prod.fst ↔ _
      rw [(ih (planInsert (r.tar, r.url) r.member acc)).2 k,
        planInsert_keys_mem]
      simp [or_assoc]

/-- C6 counterexample: two selection rows with the same `tar_xz` name but
different URLs.  The plan is keyed by the `(tar_xz, tar_xz_url)` pair, so the
archive id `"t"` appears in two plan entries, and plan construction is total
— no `PlanConflict` error exists or is raised. -/
theorem buildPlan_duplicate_id_cex :
    buildPlan [⟨"t", "u1", "m1", none⟩, ⟨"t", "u2", "m2", none⟩]
        = [(("t", "u1"), {"m1"}), (("t", "u2"), {"m2"})] ∧
      (buildPlan [⟨"t", "u1", "m1", none⟩, ⟨"t", "u2", "m2", none⟩]).map
          (fun e => e.1.1) = ["t", "t"] := by
  constructor <;> decide

/-- C6 (amended): plan construction groups the selection set by the
`(archive_id, source_url)` pair: the resulting plan has exactly one entry per
distinct pair occurring in the rows (keys are never duplicated), so an
archive id carrying two different URLs yields two plan entries rather than a
`PlanConflict` failure. -/
theorem buildPlan_grouping (rows : List Row) :
    ((buildPlan rows).map Prod.fst).Nodup ∧
      (∀ k, k ∈ (buildPlan rows).map Prod.fst ↔
        k ∈ rows.map fun r => (r.tar, r.url)) := by
  have h := buildPlan_aux rows []
  exact ⟨h.1 (by simp), fun k => by simpa using h.2 k⟩

end AtbFetch
